import Mathlib

/-
Shallow embedding of the kimchi-5k batch-enrichment pipeline.

The store (data/2-definitions.json) is a JSON object mapping rank keys to
definition entries.  We model it as an association list `List (Nat × DefinitionEntry)`
in iteration order; JavaScript objects never hold duplicate keys, and all code
below accesses entries through `lookupRank`/`updateRank`, which mirror
`record[String(rank)]` reads and in-place field mutation.

Optional JSON fields (`lemma?`, `llmCheckOn?`, `eng?`) become `Option String`;
the optional `concerns?` array is modelled as a plain list with `[]` for
"absent", which is behaviourally identical everywhere the source reads it
(every read is `entry.concerns ?? []` or a length test).
-/

structure Concern where
  rank : Nat
  key : String
  why : String
deriving DecidableEq, Repr

structure DefinitionEntry where
  «def» : Option String
  term : String
  «lemma» : Option String
  pos : String
  defRequestId : String
  createdAt : String
  llmCheckOn : Option String
  concerns : List Concern
  eng : Option String
deriving DecidableEq, Repr

structure LemmaEntry where
  rank : Nat
  term : String
  «lemma» : Option String
  pos : String
deriving DecidableEq, Repr

inductive CAction where
  | replace
  | keep
  | null
deriving DecidableEq, Repr

structure Correction where
  rank : Nat
  action : CAction
  «def» : Option String
deriving DecidableEq, Repr

structure PosFix where
  rank : Nat
  newPos : String
deriving DecidableEq, Repr

structure Translation where
  rank : Nat
  eng : String
deriving DecidableEq, Repr

structure TermEntry where
  term : String
  rank : Nat
deriving DecidableEq, Repr

/-- A primitive JSON value as seen by the response validators; `jUndef` stands
for a missing field (`undefined`), numbers are the integer ranks the schema
allows. -/
inductive JValue where
  | jNull
  | jUndef
  | jNum (n : Nat)
  | jStr (s : String)
  | jBool (b : Bool)
deriving DecidableEq, Repr

/-- Raw (untrusted) item of a definition-generation response array. -/
structure RawDefItem where
  rank : JValue
  «def» : JValue
deriving DecidableEq, Repr

/-- Raw (untrusted) item of a correction response array. -/
structure RawCorrItem where
  rank : JValue
  action : JValue
  «def» : JValue
deriving DecidableEq, Repr

/-- Raw (untrusted) item of a translation response array. -/
structure RawTransItem where
  rank : JValue
  eng : JValue
deriving DecidableEq, Repr

/-- JavaScript `String.prototype.trim`, implemented structurally over the
character list so that it computes by kernel reduction. -/
def jsTrim (s : String) : String :=
  String.mk (((s.toList.dropWhile Char.isWhitespace).reverse.dropWhile Char.isWhitespace).reverse)

abbrev Store := List (Nat × DefinitionEntry)

/-- Read `record[String(rank)]`. -/
def lookupRank : Store → Nat → Option DefinitionEntry
  | [], _ => none
  | p :: rest, r => if p.1 = r then some p.2 else lookupRank rest r

/-- Mutate the entry stored under `r` in place (no-op when the key is absent),
as the pipeline scripts do through `record[String(rank)].field = ...`. -/
def updateRank (st : Store) (r : Nat) (f : DefinitionEntry → DefinitionEntry) : Store :=
  st.map (fun p => if p.1 = r then (p.1, f p.2) else p)

/- ------------------------------------------------------------------ -/
/- Definition generation (src/unnamed/part_002)                        -/
/- ------------------------------------------------------------------ -/

def TARGET_POS : List String := ["ADJ", "ADV", "CONJ", "NOUN", "VERB"]

/-- JS truthiness of `existingDefinitions[entry.rank]?.def`: false for a
missing entry, a `null` def, or an empty-string def. -/
def defJsTruthy : Option DefinitionEntry → Bool
  | some e =>
    match e.«def» with
    | some s => !(s == "")
    | none => false
  | none => false

/-- Pending subset of the definition-generation pass:
`lemmas.filter(e => TARGET_POS.has(e.pos) && !existingDefinitions[e.rank]?.def)`. -/
def todoFilter (lemmas : List LemmaEntry) (st : Store) : List LemmaEntry :=
  lemmas.filter (fun le => TARGET_POS.contains le.pos && !(defJsTruthy (lookupRank st le.rank)))

/-- Entry built by `parseDefinitions` for an in-batch item: a brand-new object
with only the six generation fields (so `llmCheckOn`, `concerns`, `eng` are
absent). -/
def mkDefEntry (src : LemmaEntry) (d : String) (defRequestId now : String) : DefinitionEntry :=
  { «def» := some (jsTrim d)
    term := src.term
    «lemma» := src.«lemma»
    pos := src.pos
    defRequestId := defRequestId
    createdAt := now
    llmCheckOn := none
    concerns := []
    eng := none }

/-- Loop body of `parseDefinitions`: a wrong-typed or missing `rank`/`def`
throws (fails the whole batch); an out-of-batch rank is skipped. -/
def parseDefsGo : List RawDefItem → List LemmaEntry → String → String →
    Except String (List (Nat × DefinitionEntry))
  | [], _, _, _ => .ok []
  | item :: rest, batch, rid, now =>
    match item.rank, item.«def» with
    | .jNum r, .jStr d =>
      match parseDefsGo rest batch rid now with
      | .error msg => .error msg
      | .ok tail =>
        match batch.find? (fun le => le.rank == r) with
        | none => .ok tail
        | some src => .ok ((r, mkDefEntry src d rid now) :: tail)
    | _, _ => .error "정의 항목 형식이 잘못되었습니다."

/-- `parseDefinitions(responseText, batchByRank, defRequestId)`: the argument
is the decoded `parsed.definitions` field (`none` when absent or not an
array, which is a fatal parse failure). -/
def parseDefinitions (parsed : Option (List RawDefItem)) (batch : List LemmaEntry)
    (rid now : String) : Except String (List (Nat × DefinitionEntry)) :=
  match parsed with
  | none => .error "응답에 definitions 배열이 없습니다."
  | some items => parseDefsGo items batch rid now

/-- Write-or-insert `existingDefinitions[rank] = definition`. -/
def setRank (st : Store) (r : Nat) (e : DefinitionEntry) : Store :=
  if st.any (fun p => p.1 = r) then
    st.map (fun p => if p.1 = r then (p.1, e) else p)
  else st ++ [(r, e)]

/-- Merge loop of the generation pass:
`for ([rank, definition] of Object.entries(batchDefinitions)) existingDefinitions[rank] = definition`. -/
def mergeDefinitions (st : Store) (defs : List (Nat × DefinitionEntry)) : Store :=
  defs.foldl (fun s rd => setRank s rd.1 rd.2) st

/- ------------------------------------------------------------------ -/
/- Correction pass (src/unnamed/part_001)                              -/
/- ------------------------------------------------------------------ -/

/-- Item filter of `parseCorrections`: keep items whose `rank` is a number,
whose `action` is one of the three tags, and whose `def` is a string or null.
Everything else is dropped without failing the batch. -/
def validateCorrection (raw : RawCorrItem) : Option Correction :=
  match raw.rank, raw.action, raw.«def» with
  | .jNum r, .jStr a, dv =>
    match (if a == "replace" then some CAction.replace
           else if a == "keep" then some CAction.keep
           else if a == "null" then some CAction.null
           else none), dv with
    | some act, .jStr d => some ⟨r, act, some d⟩
    | some act, .jNull => some ⟨r, act, none⟩
    | _, _ => none
  | _, _, _ => none

/-- `parseCorrections`: `parsed.corrections ?? []` then the per-item filter. -/
def parseCorrections (parsed : Option (List RawCorrItem)) : List Correction :=
  (parsed.getD []).filterMap validateCorrection

/-- Per-entry effect of one validated correction: `replace` sets
`def = c.def ?? entry.def`, `null` sets `def = null`, `keep` leaves it; in all
cases `concerns = []` and `llmCheckOn = timestamp`.  Note: `defRequestId` is
not touched by the source. -/
def correctEntry (e : DefinitionEntry) (c : Correction) (stamp : String) : DefinitionEntry :=
  let e1 :=
    match c.action with
    | .replace =>
      { e with «def» := match c.«def» with | some d => some d | none => e.«def» }
    | .null => { e with «def» := none }
    | .keep => e
  { e1 with concerns := [], llmCheckOn := some stamp }

/-- `applyCorrections(record, corrections, timestamp)`: each correction is
applied to the entry of its own rank (skipped when the rank is absent); the
list of corrections carries no batch restriction. -/
def applyCorrections (st : Store) (cs : List Correction) (stamp : String) : Store :=
  cs.foldl (fun s c => updateRank s c.rank (fun e => correctEntry e c stamp)) st

/- ------------------------------------------------------------------ -/
/- Audit pass (src/utils/patrol.ts)                                    -/
/- ------------------------------------------------------------------ -/

/-- Pending predicate of the audit pass:
`entry.def !== null && !entry.llmCheckOn` (JS falsiness: absent or `""`). -/
def llmFalsy : Option String → Bool
  | none => true
  | some s => s == ""

def patrolPending (e : DefinitionEntry) : Bool :=
  e.«def».isSome && llmFalsy e.llmCheckOn

/-- `new Map(posFixes.map(p => [p.rank, p.newPos])).get(rank)`: the last fix
for a rank wins. -/
def posFixFor (ps : List PosFix) (rank : Nat) : Option String :=
  ps.foldl (fun acc p => if p.rank = rank then some p.newPos else acc) none

/-- Audit merge on one entry: stamp `llmCheckOn`, replace `concerns` with
exactly the findings of this rank, and overwrite `pos` when a truthy fix
exists (`if (fixedPos)` rejects the empty string). -/
def auditEntry (e : DefinitionEntry) (rank : Nat) (cs : List Concern)
    (ps : List PosFix) (stamp : String) : DefinitionEntry :=
  { e with
    llmCheckOn := some stamp
    concerns := cs.filter (fun c => c.rank == rank)
    pos := match posFixFor ps rank with
           | some f => if f == "" then e.pos else f
           | none => e.pos }

/-- Merge loop of the audit pass over one batch of ranks. -/
def applyAudit (st : Store) (batch : List Nat) (cs : List Concern)
    (ps : List PosFix) (stamp : String) : Store :=
  batch.foldl (fun s rank => updateRank s rank (fun e => auditEntry e rank cs ps stamp)) st

/- ------------------------------------------------------------------ -/
/- Translation pass (src/utils/add-eng.ts)                             -/
/- ------------------------------------------------------------------ -/

/-- Item filter of `parseTranslations`: numeric rank, string `eng` with
non-empty trim. -/
def validateTranslation (raw : RawTransItem) : Option Translation :=
  match raw.rank, raw.eng with
  | .jNum r, .jStr s => if jsTrim s == "" then none else some ⟨r, s⟩
  | _, _ => none

def parseTranslations (parsed : Option (List RawTransItem)) : List Translation :=
  (parsed.getD []).filterMap validateTranslation

/-- Per-entry effect of one validated translation:
`entry.eng = t.eng.trim(); entry.llmCheckOn = entry.llmCheckOn ?? stamp`. -/
def transEntry (e : DefinitionEntry) (t : Translation) (stamp : String) : DefinitionEntry :=
  { e with eng := some (jsTrim t.eng), llmCheckOn := some (e.llmCheckOn.getD stamp) }

/-- Merge loop of the translation pass: each validated item is applied to the
entry of its own rank (skipped when absent), with no batch restriction and no
check that `eng` was previously absent. -/
def applyTranslations (st : Store) (ts : List Translation) (stamp : String) : Store :=
  ts.foldl (fun s t => updateRank s t.rank (fun e => transEntry e t stamp)) st

/-- Pending predicate of the translation pass:
`entry.def !== null && !entry.eng`. -/
def engPending (e : DefinitionEntry) : Bool :=
  e.«def».isSome && llmFalsy e.eng

/- ------------------------------------------------------------------ -/
/- Spot-check delete (src/utils/spot-check.ts)                         -/
/- ------------------------------------------------------------------ -/

/-- `record[rank] = { ...entry, def: null, defRequestId: "", createdAt: now }`. -/
def clearEntry (e : DefinitionEntry) (now : String) : DefinitionEntry :=
  { e with «def» := none, defRequestId := "", createdAt := now }

/-- Delete mode of spot-check: clear every entry whose `defRequestId` is in
the id list and whose `def` is non-null, counting the cleared entries. -/
def spotCheckDelete : Store → List String → String → Store × Nat
  | [], _, _ => ([], 0)
  | (k, e) :: rest, ids, now =>
    let res := spotCheckDelete rest ids now
    if ids.contains e.defRequestId && e.«def».isSome then
      ((k, clearEntry e now) :: res.1, res.2 + 1)
    else ((k, e) :: res.1, res.2)

/- ------------------------------------------------------------------ -/
/- Retry wrapper (src/unnamed/part_000 and part_003)                   -/
/- ------------------------------------------------------------------ -/

/-- External-service error as inspected by the retry loops: only the optional
numeric `code` matters. -/
structure GError where
  code : Option Int
deriving DecidableEq, Repr

/-- `code === 8` (RESOURCE_EXHAUSTED) is the only retryable class. -/
def isRateLimit (e : GError) : Bool :=
  match e.code with
  | some c => c == 8
  | none => false

/-- Failure of the whole retry wrapper: either the underlying service error is
rethrown, or the post-loop `throw new Error("Exhausted retries")` fires. -/
inductive RetryFailure where
  | underlying (e : GError)
  | exhausted
deriving DecidableEq, Repr

/-- The retry loop of `lemmatizeWithRetry` / `analyzeWithRetry`.  `f attempt`
is the outcome of the attempt-th call; the result carries the final outcome,
the number of attempts performed, and the list of backoff waits (ms).  `fuel`
is the number of loop iterations left (`maxRetries + 1` at entry); running out
of fuel is the unreachable post-loop throw. -/
def retryAux {A : Type} (f : Nat → Except GError A) (maxRetries baseBackoff : Nat) :
    Nat → Nat → Except RetryFailure A × Nat × List Nat
  | _, 0 => (.error .exhausted, 0, [])
  | attempt, fuel + 1 =>
    match f attempt with
    | .ok a => (.ok a, 1, [])
    | .error e =>
      if !(isRateLimit e) || attempt == maxRetries then
        (.error (.underlying e), 1, [])
      else
        let w := baseBackoff * 2 ^ attempt
        let rest := retryAux f maxRetries baseBackoff (attempt + 1) fuel
        (rest.1, rest.2.1 + 1, w :: rest.2.2)

/-- Whole wrapper: `for (attempt = 0; attempt <= maxRetries; attempt++)`. -/
def retryRun {A : Type} (f : Nat → Except GError A) (maxRetries baseBackoff : Nat) :
    Except RetryFailure A × Nat × List Nat :=
  retryAux f maxRetries baseBackoff 0 (maxRetries + 1)

def MAX_RETRIES : Nat := 5
def BASE_BACKOFF_MS : Nat := 1000

/- ------------------------------------------------------------------ -/
/- Ingestion (src/unnamed/part_004)                                    -/
/- ------------------------------------------------------------------ -/

def digitsToNat (ds : List Char) : Nat :=
  ds.foldl (fun n c => n * 10 + (c.toNat - 48)) 0

/-- Term captured by `^\s*(\d+)\.\s*(.+?)\s*$` after the dot: the remainder
with surrounding whitespace stripped; when the remainder is all whitespace the
backtracking leaves exactly its last character as the term. -/
def extractTerm (rest : List Char) : String :=
  let t := ((rest.dropWhile Char.isWhitespace).reverse.dropWhile Char.isWhitespace).reverse
  if t.isEmpty then String.mk (rest.drop (rest.length - 1)) else String.mk t

/-- Match of `linePattern = /^\s*(\d+)\.\s*(.+?)\s*$/` on one line. -/
def matchLine (line : String) : Option (Nat × String) :=
  let cs := line.toList
  let rest1 := cs.dropWhile Char.isWhitespace
  let digits := rest1.takeWhile Char.isDigit
  if digits.isEmpty then none
  else
    match rest1.dropWhile Char.isDigit with
    | '.' :: rest3 => if rest3.isEmpty then none else some (digitsToNat digits, extractTerm rest3)
    | _ => none

/-- `parseLine`: blank lines are skipped (`if (!line.trim()) return null`),
a non-matching line throws, a matching line yields the entry.  The
`Incomplete match` throw of the source is unreachable (both captures are
non-empty whenever the pattern matches) and is not modelled. -/
def parseLine (line : String) : Except String (Option TermEntry) :=
  if jsTrim line = "" then .ok none
  else
    match matchLine line with
    | some (r, t) => .ok (some ⟨t, r⟩)
    | none => .error ("Unrecognized line: " ++ line)

/-- The per-line ingestion loop of `readTerms` over the lines of one raw file
(the final sort by rank happens afterwards and is unrelated to error
behaviour). -/
def parseAllLines : List String → Except String (List TermEntry)
  | [] => .ok []
  | l :: rest =>
    match parseLine l with
    | .error msg => .error msg
    | .ok none => parseAllLines rest
    | .ok (some e) => (parseAllLines rest).map (e :: ·)

/- ------------------------------------------------------------------ -/
/- Auxiliary definitions used by the statements                        -/
/- ------------------------------------------------------------------ -/

/-- Last element of `ts` whose rank equals `r` (the item whose write survives
when several response items target the same rank). -/
def lastMatch : List Translation → Nat → Option Translation
  | [], _ => none
  | t :: rest, r =>
    match lastMatch rest r with
    | some t' => some t'
    | none => if t.rank = r then some t else none

/-- Whether an ingestion run ended in the fatal-error path. -/
def isFatal (r : Except String (List TermEntry)) : Bool :=
  match r with
  | .error _ => true
  | .ok _ => false

/-- An operation that fails with the retryable RESOURCE_EXHAUSTED code on
every attempt. -/
def fAllFail : Nat → Except GError Unit := fun _ => .error ⟨some 8⟩

/-- A typical fully-generated entry used as concrete test data. -/
def sampleEntry : DefinitionEntry :=
  { «def» := some "음식을 입에 넣다."
    term := "먹다"
    «lemma» := none
    pos := "VERB"
    defRequestId := "req-a"
    createdAt := "t0"
    llmCheckOn := none
    concerns := []
    eng := none }

/-- Flagged, already-audited entry: one open concern on rank 5. -/
def eC1 : DefinitionEntry :=
  { sampleEntry with
    term := "험하다"
    pos := "ADJ"
    defRequestId := "req-1"
    llmCheckOn := some "t1"
    concerns := [⟨5, "def", "definition unrelated to term"⟩] }

/-- Entry that was audited and then nulled by a correction: `def` is `null`
while `llmCheckOn` is still stamped. -/
def eC2 : DefinitionEntry :=
  { sampleEntry with
    term := "가다"
    «def» := none
    defRequestId := ""
    llmCheckOn := some "2024-01-01T00:00:00Z" }

def stC2 : Store := [(1, eC2)]

def lemsC2 : List LemmaEntry := [⟨1, "가다", none, "VERB"⟩]

def rawC2 : List RawDefItem := [⟨.jNum 1, .jStr "어떤 곳으로 움직이다."⟩]

/-- Entry that already carries an English gloss. -/
def eC7 : DefinitionEntry := { sampleEntry with eng := some "old gloss" }

/-- Store used against the out-of-batch claims: rank 1 is flagged (the batch
the correction pass prompts), rank 2 is a clean unaudited entry. -/
def stC5 : Store := [(1, eC1), (2, sampleEntry)]

/-- Store whose rank-2 entry is a placeholder respecting the invariant
`def === null` implies `defRequestId === ""`. -/
def stC8 : Store :=
  [(1, { sampleEntry with defRequestId := "req-x" }),
   (2, { sampleEntry with «def» := none, defRequestId := "" })]

/- ------------------------------------------------------------------ -/
/- Helper lemmas                                                       -/
/- ------------------------------------------------------------------ -/

theorem lookupRank_updateRank (k : Nat) (f : DefinitionEntry → DefinitionEntry) (r : Nat) :
    ∀ (st : Store),
      lookupRank (updateRank st k f) r
        = if r = k then (lookupRank st r).map f else lookupRank st r := by
  intro st
  induction st with
  | nil => simp [updateRank, lookupRank]
  | cons p rest ih =>
    obtain ⟨pk, pe⟩ := p
    by_cases h1 : pk = k
    · subst h1
      by_cases h2 : pk = r
      · subst h2
        simp [updateRank, lookupRank]
      · have hrk : ¬r = pk := fun h => h2 h.symm
        simpa [updateRank, lookupRank, h2, hrk] using ih
    · by_cases h2 : pk = r
      · subst h2
        have hrk : ¬pk = k := h1
        simp [updateRank, lookupRank, hrk]
      · simpa [updateRank, lookupRank, h1, h2] using ih

theorem lookupRank_foldl_update {β : Type} (key : β → Nat)
    (f : β → DefinitionEntry → DefinitionEntry) (r : Nat) :
    ∀ (items : List β) (st : Store),
      lookupRank (items.foldl (fun s b => updateRank s (key b) (f b)) st) r
        = (lookupRank st r).map
            (fun e => (items.filter (fun b => key b == r)).foldl (fun acc b => f b acc) e) := by
  intro items
  induction items with
  | nil =>
    intro st
    cases h : lookupRank st r <;> simp [h]
  | cons b rest ih =>
    intro st
    simp only [List.foldl_cons]
    rw [ih, lookupRank_updateRank]
    by_cases h : key b = r
    · have h' : r = key b := h.symm
      subst h
      simp only [List.filter_cons, if_pos rfl, beq_self_eq_true, if_true]
      cases hl : lookupRank st (key b) <;> simp [hl]
    · have h' : ¬r = key b := fun hh => h hh.symm
      have hb : (key b == r) = false := by
        simpa using h
      simp [List.filter_cons, hb, h']

theorem auditEntry_idem (e : DefinitionEntry) (rank : Nat) (cs : List Concern)
    (ps : List PosFix) (stamp : String) :
    auditEntry (auditEntry e rank cs ps stamp) rank cs ps stamp
      = auditEntry e rank cs ps stamp := by
  simp only [auditEntry]
  cases hfix : posFixFor ps rank with
  | none => rfl
  | some fx =>
    by_cases hfx : fx == ""
    · simp [hfx]
    · simp [hfx]

theorem applyAudit_eq_map (cs : List Concern) (ps : List PosFix) (stamp : String) :
    ∀ (b : List Nat) (st : Store),
      applyAudit st b cs ps stamp
        = st.map (fun p => if b.contains p.1 then (p.1, auditEntry p.2 p.1 cs ps stamp) else p) := by
  intro b
  induction b with
  | nil =>
    intro st
    simp [applyAudit]
  | cons rank b' ih =>
    intro st
    have step : applyAudit st (rank :: b') cs ps stamp
        = applyAudit (updateRank st rank (fun e => auditEntry e rank cs ps stamp)) b' cs ps stamp := by
      simp [applyAudit]
    rw [step, ih, updateRank, List.map_map]
    apply List.map_congr_left
    intro p _
    obtain ⟨pk, pe⟩ := p
    by_cases h1 : pk = rank
    · subst h1
      cases hc : b'.contains pk <;>
        simp [Function.comp, List.contains_cons, hc, auditEntry_idem]
    · have hb : (pk == rank) = false := by simpa using h1
      cases hc : b'.contains pk <;>
        simp [Function.comp, List.contains_cons, hc, h1, hb]

theorem transEntry_comp (e : DefinitionEntry) (t t' : Translation) (stamp : String) :
    transEntry (transEntry e t stamp) t' stamp = transEntry e t' stamp := by
  simp [transEntry]

theorem transFold_lastMatch (stamp : String) (r : Nat) :
    ∀ (ts : List Translation) (e : DefinitionEntry),
      (ts.filter (fun t => t.rank == r)).foldl (fun acc t => transEntry acc t stamp) e
        = match lastMatch ts r with
          | none => e
          | some t => transEntry e t stamp := by
  intro ts
  induction ts with
  | nil => intro e; simp [lastMatch]
  | cons t rest ih =>
    intro e
    by_cases h : t.rank = r
    · have hb : (t.rank == r) = true := by simpa using h
      have hfc : (t :: rest).filter (fun t => t.rank == r)
          = t :: rest.filter (fun t => t.rank == r) := by
        simp [List.filter_cons, hb]
      rw [hfc, List.foldl_cons, ih (transEntry e t stamp)]
      cases hlm : lastMatch rest r with
      | none => simp [lastMatch, hlm, h]
      | some t' => simp [lastMatch, hlm, transEntry_comp]
    · have hb : (t.rank == r) = false := by simpa using h
      have hfc : (t :: rest).filter (fun t => t.rank == r)
          = rest.filter (fun t => t.rank == r) := by
        simp [List.filter_cons, hb]
      rw [hfc, ih e]
      cases hlm : lastMatch rest r with
      | none => simp [lastMatch, hlm, h]
      | some t' => simp [lastMatch, hlm]

theorem foldl_preserves_llm {β : Type} (f : β → DefinitionEntry → DefinitionEntry)
    (hf : ∀ b a, a.llmCheckOn.isSome = true → (f b a).llmCheckOn.isSome = true) :
    ∀ (l : List β) (a : DefinitionEntry), a.llmCheckOn.isSome = true →
      (l.foldl (fun acc b => f b acc) a).llmCheckOn.isSome = true := by
  intro l
  induction l with
  | nil => intro a ha; simpa using ha
  | cons b rest ih =>
    intro a ha
    simpa using ih (f b a) (hf b a ha)

theorem spotCheckDelete_cons_true (k : Nat) (e : DefinitionEntry) (rest : Store)
    (ids : List String) (now : String)
    (hb : (ids.contains e.defRequestId && e.«def».isSome) = true) :
    spotCheckDelete ((k, e) :: rest) ids now
      = ((k, clearEntry e now) :: (spotCheckDelete rest ids now).1,
         (spotCheckDelete rest ids now).2 + 1) := by
  simp only [spotCheckDelete]
  rw [if_pos hb]

theorem spotCheckDelete_cons_false (k : Nat) (e : DefinitionEntry) (rest : Store)
    (ids : List String) (now : String)
    (hb : (ids.contains e.defRequestId && e.«def».isSome) = false) :
    spotCheckDelete ((k, e) :: rest) ids now
      = ((k, e) :: (spotCheckDelete rest ids now).1, (spotCheckDelete rest ids now).2) := by
  simp only [spotCheckDelete]
  have hnb : ¬((ids.contains e.defRequestId && e.«def».isSome) = true) := by
    rw [hb]; exact Bool.false_ne_true
  rw [if_neg hnb]

theorem lookupRank_spotCheckDelete (ids : List String) (now : String) :
    ∀ (st : Store) (r : Nat),
      lookupRank (spotCheckDelete st ids now).1 r
        = (lookupRank st r).map
            (fun e => if ids.contains e.defRequestId && e.«def».isSome then clearEntry e now else e) := by
  intro st
  induction st with
  | nil => intro r; simp [spotCheckDelete, lookupRank]
  | cons p rest ih =>
    intro r
    obtain ⟨k, e⟩ := p
    cases hb : (ids.contains e.defRequestId && e.«def».isSome) with
    | true =>
      rw [spotCheckDelete_cons_true k e rest ids now hb]
      by_cases hk : k = r
      · subst hk
        have h1 : lookupRank ((k, clearEntry e now) :: (spotCheckDelete rest ids now).1) k
            = some (clearEntry e now) := by simp [lookupRank]
        have h2 : lookupRank ((k, e) :: rest) k = some e := by simp [lookupRank]
        rw [h1, h2, Option.map_some']
        exact congrArg some (if_pos hb).symm
      · simp [lookupRank, hk, ih]
    | false =>
      rw [spotCheckDelete_cons_false k e rest ids now hb]
      by_cases hk : k = r
      · subst hk
        have h1 : lookupRank ((k, e) :: (spotCheckDelete rest ids now).1) k = some e := by
          simp [lookupRank]
        have h2 : lookupRank ((k, e) :: rest) k = some e := by simp [lookupRank]
        rw [h1, h2, Option.map_some']
        have hnb : ¬((ids.contains e.defRequestId && e.«def».isSome) = true) := by
          rw [hb]; exact Bool.false_ne_true
        exact congrArg some (if_neg hnb).symm
      · simp [lookupRank, hk, ih]

theorem lookupRank_append_ne (k : Nat) (e : DefinitionEntry) (r : Nat) (h : r ≠ k) :
    ∀ (st : Store), lookupRank (st ++ [(k, e)]) r = lookupRank st r := by
  intro st
  induction st with
  | nil => simp [lookupRank, Ne.symm h]
  | cons p rest ih =>
    by_cases hp : p.1 = r
    · simp [lookupRank, hp]
    · simp [lookupRank, hp, ih]

theorem lookupRank_setRank_ne (st : Store) (k : Nat) (e : DefinitionEntry) (r : Nat)
    (h : r ≠ k) : lookupRank (setRank st k e) r = lookupRank st r := by
  unfold setRank
  split
  · have : st.map (fun p => if p.1 = k then (p.1, e) else p) = updateRank st k (fun _ => e) := rfl
    rw [this, lookupRank_updateRank, if_neg h]
  · exact lookupRank_append_ne k e r h st

theorem mergeDefinitions_frame (r : Nat) :
    ∀ (defs : List (Nat × DefinitionEntry)) (st : Store),
      (∀ q ∈ defs, q.1 ≠ r) → lookupRank (mergeDefinitions st defs) r = lookupRank st r := by
  intro defs
  induction defs with
  | nil => intro st _; simp [mergeDefinitions]
  | cons q rest ih =>
    intro st hq
    have step : mergeDefinitions st (q :: rest) = mergeDefinitions (setRank st q.1 q.2) rest := by
      simp [mergeDefinitions]
    rw [step, ih (setRank st q.1 q.2) (fun x hx => hq x (List.mem_cons_of_mem _ hx))]
    exact lookupRank_setRank_ne st q.1 q.2 r
      (fun hh => hq q (List.mem_cons_self _ _) hh.symm)

theorem parseDefsGo_ranks :
    ∀ (items : List RawDefItem) (batch : List LemmaEntry) (rid now : String)
      (res : List (Nat × DefinitionEntry)),
      parseDefsGo items batch rid now = .ok res →
      ∀ q ∈ res, ∃ le ∈ batch, le.rank = q.1 := by
  intro items
  induction items with
  | nil =>
    intro batch rid now res h q hq
    simp only [parseDefsGo] at h
    cases h
    cases hq
  | cons item rest ih =>
    intro batch rid now res h q hq
    obtain ⟨irk, idf⟩ := item
    cases irk with
    | jNum rv =>
      cases idf with
      | jStr d =>
        simp only [parseDefsGo] at h
        cases hrec : parseDefsGo rest batch rid now with
        | error msg =>
          rw [hrec] at h
          exact Except.noConfusion h
        | ok tail =>
          rw [hrec] at h
          cases hfind : List.find? (fun le => le.rank == rv) batch with
          | none =>
            rw [hfind] at h
            have h' : (Except.ok tail : Except String (List (Nat × DefinitionEntry)))
                = Except.ok res := h
            cases h'
            exact ih batch rid now res hrec q hq
          | some src =>
            rw [hfind] at h
            have h' : (Except.ok ((rv, mkDefEntry src d rid now) :: tail) :
                Except String (List (Nat × DefinitionEntry))) = Except.ok res := h
            cases h'
            rcases List.mem_cons.mp hq with hq1 | hq2
            · subst hq1
              refine ⟨src, List.mem_of_find?_eq_some hfind, ?_⟩
              have hs := List.find?_some hfind
              simpa using hs
            · exact ih batch rid now tail hrec q hq2
      | jNull => simp only [parseDefsGo] at h; exact Except.noConfusion h
      | jUndef => simp only [parseDefsGo] at h; exact Except.noConfusion h
      | jNum n => simp only [parseDefsGo] at h; exact Except.noConfusion h
      | jBool bb => simp only [parseDefsGo] at h; exact Except.noConfusion h
    | jNull => simp only [parseDefsGo] at h; exact Except.noConfusion h
    | jUndef => simp only [parseDefsGo] at h; exact Except.noConfusion h
    | jStr sv => simp only [parseDefsGo] at h; exact Except.noConfusion h
    | jBool bv => simp only [parseDefsGo] at h; exact Except.noConfusion h

theorem retryAux_cont {A : Type} (f : Nat → Except GError A) (m b attempt fuel : Nat)
    (e : GError) (hf : f attempt = .error e)
    (hc : (!(isRateLimit e) || (attempt == m)) = false) :
    retryAux f m b attempt (fuel + 1)
      = ((retryAux f m b (attempt + 1) fuel).1,
         (retryAux f m b (attempt + 1) fuel).2.1 + 1,
         b * 2 ^ attempt :: (retryAux f m b (attempt + 1) fuel).2.2) := by
  have h0 : retryAux f m b attempt (fuel + 1)
      = match f attempt with
        | .ok a => (.ok a, 1, [])
        | .error e =>
          if !(isRateLimit e) || attempt == m then (.error (.underlying e), 1, [])
          else
            ((retryAux f m b (attempt + 1) fuel).1,
             (retryAux f m b (attempt + 1) fuel).2.1 + 1,
             b * 2 ^ attempt :: (retryAux f m b (attempt + 1) fuel).2.2) := rfl
  rw [h0, hf]
  simp [hc]

theorem retryAux_last {A : Type} (f : Nat → Except GError A) (m b attempt fuel : Nat)
    (e : GError) (hf : f attempt = .error e)
    (hc : (!(isRateLimit e) || (attempt == m)) = true) :
    retryAux f m b attempt (fuel + 1) = (.error (.underlying e), 1, []) := by
  have h0 : retryAux f m b attempt (fuel + 1)
      = match f attempt with
        | .ok a => (.ok a, 1, [])
        | .error e =>
          if !(isRateLimit e) || attempt == m then (.error (.underlying e), 1, [])
          else
            ((retryAux f m b (attempt + 1) fuel).1,
             (retryAux f m b (attempt + 1) fuel).2.1 + 1,
             b * 2 ^ attempt :: (retryAux f m b (attempt + 1) fuel).2.2) := rfl
  rw [h0, hf]
  simp [hc]

theorem retryAux_rateLimited {A : Type} (f : Nat → Except GError A) (err : Nat → GError)
    (m b : Nat) (h : ∀ i, i ≤ m → f i = .error (err i) ∧ isRateLimit (err i) = true) :
    ∀ (k attempt : Nat), attempt + k = m →
      retryAux f m b attempt (k + 1)
        = (.error (.underlying (err m)), k + 1,
           (List.range k).map (fun i => b * 2 ^ (attempt + i))) := by
  intro k
  induction k with
  | zero =>
    intro attempt hat
    have hA : attempt = m := by omega
    subst hA
    obtain ⟨hf, _⟩ := h attempt (by omega)
    simp [retryAux, hf]
  | succ k ih =>
    intro attempt hat
    obtain ⟨hf, hr⟩ := h attempt (by omega)
    have hne : (attempt == m) = false := by
      have : attempt ≠ m := by omega
      simpa using this
    have hc : (!(isRateLimit (err attempt)) || (attempt == m)) = false := by
      rw [hr, hne]
      rfl
    rw [retryAux_cont f m b attempt (k + 1) (err attempt) hf hc,
      ih (attempt + 1) (by omega)]
    have hexp : ∀ i : Nat, b * 2 ^ (attempt + 1 + i) = b * 2 ^ (attempt + (i + 1)) := by
      intro i
      rw [show attempt + 1 + i = attempt + (i + 1) by omega]
    simp [List.range_succ_eq_map, Function.comp, hexp]

/- ------------------------------------------------------------------ -/
/- Claim theorems                                                      -/
/- ------------------------------------------------------------------ -/

/-- C1: the definition-correction merge, applying a validated item with action
`"null"` at rank 5, sets `def = null`, clears `concerns`, restamps
`llmCheckOn` — but leaves `defRequestId` at its old non-empty value, so the
store invariant `def === null` implies `defRequestId === ""` is broken by the
code (the spec requires the id to be cleared). -/
theorem C1_null_keeps_defRequestId :
    lookupRank (applyCorrections [(5, eC1)] [⟨5, CAction.null, none⟩] "T2") 5
        = some { eC1 with «def» := none, concerns := [], llmCheckOn := some "T2" }
    ∧ eC1.defRequestId = "req-1"
    ∧ ("req-1" : String) ≠ "" :=
  ⟨rfl, rfl, by decide⟩

/-- C2 counterexample: an entry audited and then nulled by the correction pass
(`def = null`, `llmCheckOn` stamped) is selected again by the generation pass,
and the generation merge replaces it wholesale with an entry whose
`llmCheckOn` is absent — an audited entry returns to the Unaudited state. -/
theorem C2_counterexample :
    todoFilter lemsC2 stC2 = lemsC2
    ∧ parseDefinitions (some rawC2) (todoFilter lemsC2 stC2) "rid2" "now2"
        = .ok [(1, mkDefEntry ⟨1, "가다", none, "VERB"⟩ "어떤 곳으로 움직이다." "rid2" "now2")]
    ∧ (lookupRank stC2 1).map (fun e => e.llmCheckOn) = some (some "2024-01-01T00:00:00Z")
    ∧ (lookupRank (mergeDefinitions stC2
          [(1, mkDefEntry ⟨1, "가다", none, "VERB"⟩ "어떤 곳으로 움직이다." "rid2" "now2")]) 1).map
        (fun e => e.llmCheckOn) = some none :=
  ⟨rfl, rfl, rfl, rfl⟩

/-- C2 (amended): every pipeline merge except definition generation preserves
a set `llmCheckOn`: the audit merge, the correction merge, the translation
merge and the spot-check delete never return an entry whose `llmCheckOn` is
set to a state where it is absent. -/
theorem C2_llm_preserved (st : Store) (r : Nat) (e : DefinitionEntry)
    (hl : lookupRank st r = some e) (hset : e.llmCheckOn.isSome = true) :
    (∀ (batch : List Nat) (cs : List Concern) (ps : List PosFix) (stamp : String),
        (lookupRank (applyAudit st batch cs ps stamp) r).map (fun x => x.llmCheckOn.isSome)
          = some true)
    ∧ (∀ (cs : List Correction) (stamp : String),
        (lookupRank (applyCorrections st cs stamp) r).map (fun x => x.llmCheckOn.isSome)
          = some true)
    ∧ (∀ (ts : List Translation) (stamp : String),
        (lookupRank (applyTranslations st ts stamp) r).map (fun x => x.llmCheckOn.isSome)
          = some true)
    ∧ (∀ (ids : List String) (now : String),
        (lookupRank (spotCheckDelete st ids now).1 r).map (fun x => x.llmCheckOn.isSome)
          = some true) := by
  refine ⟨?_, ?_, ?_, ?_⟩
  · intro batch cs ps stamp
    have h3 : lookupRank (applyAudit st batch cs ps stamp) r
        = (lookupRank st r).map
            (fun x => (batch.filter (fun bb => bb == r)).foldl
              (fun acc bb => auditEntry acc bb cs ps stamp) x) :=
      lookupRank_foldl_update (fun bb : Nat => bb)
        (fun bb x => auditEntry x bb cs ps stamp) r batch st
    rw [h3, hl]
    simp only [Option.map_some']
    refine congrArg some ?_
    exact foldl_preserves_llm _ (fun bb aa _ => by simp [auditEntry]) _ e hset
  · intro cs stamp
    have h3 : lookupRank (applyCorrections st cs stamp) r
        = (lookupRank st r).map
            (fun x => (cs.filter (fun c => c.rank == r)).foldl
              (fun acc c => correctEntry acc c stamp) x) :=
      lookupRank_foldl_update (fun c : Correction => c.rank)
        (fun c x => correctEntry x c stamp) r cs st
    rw [h3, hl]
    simp only [Option.map_some']
    refine congrArg some ?_
    exact foldl_preserves_llm _ (fun c aa _ => by simp [correctEntry]) _ e hset
  · intro ts stamp
    have h3 : lookupRank (applyTranslations st ts stamp) r
        = (lookupRank st r).map
            (fun x => (ts.filter (fun t => t.rank == r)).foldl
              (fun acc t => transEntry acc t stamp) x) :=
      lookupRank_foldl_update (fun t : Translation => t.rank)
        (fun t x => transEntry x t stamp) r ts st
    rw [h3, hl]
    simp only [Option.map_some']
    refine congrArg some ?_
    exact foldl_preserves_llm _ (fun t aa _ => by simp [transEntry]) _ e hset
  · intro ids now
    rw [lookupRank_spotCheckDelete ids now st r, hl]
    simp only [Option.map_some']
    refine congrArg some ?_
    split
    · simpa [clearEntry] using hset
    · exact hset

/-- C2 witness: the four preserving merges applied to a store whose rank-5
entry has a stamped `llmCheckOn`. -/
theorem C2_witness :
    (lookupRank (applyAudit [(5, eC1)] [5] [] [] "TA") 5).map
        (fun x => x.llmCheckOn.isSome) = some true
    ∧ (lookupRank (applyCorrections [(5, eC1)] [⟨5, CAction.keep, none⟩] "TB") 5).map
        (fun x => x.llmCheckOn.isSome) = some true
    ∧ (lookupRank (applyTranslations [(5, eC1)] [⟨5, "steep"⟩] "TC") 5).map
        (fun x => x.llmCheckOn.isSome) = some true
    ∧ (lookupRank (spotCheckDelete [(5, eC1)] ["req-1"] "TD").1 5).map
        (fun x => x.llmCheckOn.isSome) = some true := by
  obtain ⟨h1, h2, h3, h4⟩ := C2_llm_preserved [(5, eC1)] 5 eC1 rfl (by decide)
  exact ⟨h1 [5] [] [] "TA", h2 [⟨5, CAction.keep, none⟩] "TB",
    h3 [⟨5, "steep"⟩] "TC", h4 ["req-1"] "TD"⟩

/-- C3 counterexample: with the shipped constants (maxRetries 5, base backoff
1000 ms) and an operation that is rate-limited on every attempt, the wrapper
performs 6 attempts with backoffs 1000·2^i but then rethrows the underlying
rate-limit error itself — not the distinct RetriesExhausted failure (the
post-loop `throw new Error("Exhausted retries")` is unreachable). -/
theorem C3_counterexample :
    retryRun fAllFail MAX_RETRIES BASE_BACKOFF_MS
        = (.error (.underlying ⟨some 8⟩), 6, [1000, 2000, 4000, 8000, 16000])
    ∧ RetryFailure.underlying ⟨some 8⟩ ≠ RetryFailure.exhausted :=
  ⟨rfl, by decide⟩

/-- C3 (amended): if every attempt fails with a retryable (code 8) error, the
retry wrapper performs exactly `maxRetries + 1` attempts, waiting
`baseBackoff * 2 ^ attempt` after each failed attempt but the last, and then
fails with the underlying error of the final attempt (never with the distinct
exhausted failure). -/
theorem C3_retry_rethrows_underlying {A : Type} (f : Nat → Except GError A)
    (err : Nat → GError) (maxRetries baseBackoff : Nat)
    (h : ∀ i, i ≤ maxRetries → f i = .error (err i) ∧ isRateLimit (err i) = true) :
    retryRun f maxRetries baseBackoff
      = (.error (.underlying (err maxRetries)), maxRetries + 1,
         (List.range maxRetries).map (fun i => baseBackoff * 2 ^ i)) := by
  have h0 := retryAux_rateLimited f err maxRetries baseBackoff h maxRetries 0 (by omega)
  simpa [retryRun] using h0

/-- C3 witness: the amended statement at `maxRetries = 1`, `baseBackoff = 2`. -/
theorem C3_witness :
    retryRun fAllFail 1 2 = (.error (.underlying ⟨some 8⟩), 2, [2]) := by
  have h := C3_retry_rethrows_underlying fAllFail (fun _ => ⟨some 8⟩) 1 2
    (fun i _ => ⟨rfl, rfl⟩)
  simpa using h

/-- C4 counterexample: the definition-generation validator, given a response
with one well-formed item and one wrong-typed item (numeric `def`), fails the
whole batch instead of yielding exactly one validated item. -/
theorem C4_counterexample :
    parseDefinitions (some [⟨.jNum 1, .jStr "좋은 뜻."⟩, ⟨.jNum 2, .jNum 5⟩])
        [⟨1, "가다", none, "VERB"⟩, ⟨2, "오다", none, "VERB"⟩] "rid4" "now4"
      = .error "정의 항목 형식이 잘못되었습니다." := rfl

/-- C4 (amended): the correction validator drops an item missing a required
field or with a wrong-typed field without failing the batch — one well-formed
item plus one invalid item yields exactly the one validated item (the
generation validator instead fails the whole batch on such items). -/
theorem C4_corrections_drop_invalid (good bad : RawCorrItem) (c : Correction)
    (hgood : validateCorrection good = some c) (hbad : validateCorrection bad = none) :
    parseCorrections (some [good, bad]) = [c] := by
  simp [parseCorrections, List.filterMap_cons, hgood, hbad]

/-- C4 witness: a well-formed replace item and an item whose `def` field is a
boolean. -/
theorem C4_witness :
    parseCorrections (some [⟨.jNum 3, .jStr "replace", .jStr "새 뜻."⟩,
        ⟨.jNum 4, .jStr "keep", .jBool true⟩])
      = [⟨3, CAction.replace, some "새 뜻."⟩] :=
  C4_corrections_drop_invalid ⟨.jNum 3, .jStr "replace", .jStr "새 뜻."⟩
    ⟨.jNum 4, .jStr "keep", .jBool true⟩ ⟨3, CAction.replace, some "새 뜻."⟩ rfl rfl

/-- C5 counterexample: the correction merge is driven only by the ranks in the
validated response — a response item for rank 2, outside the batch of flagged
entries the pass prompted (rank 1 is the only flagged entry of `stC5`),
modifies the rank-2 entry (its `llmCheckOn` gets stamped). -/
theorem C5_counterexample :
    (lookupRank (applyCorrections stC5 [⟨2, CAction.keep, none⟩] "T5") 2).map
        (fun e => e.llmCheckOn) = some (some "T5")
    ∧ (lookupRank stC5 2).map (fun e => e.llmCheckOn) = some none :=
  ⟨rfl, rfl⟩

/-- C5 (amended): the definition-generation validator rejects items whose rank
is not in the current batch, so the generation merge never modifies a store
entry outside the batch ranks; the correction and translation merges have no
such guard and write to any rank present in the store. -/
theorem C5_generation_frame (parsed : Option (List RawDefItem)) (batch : List LemmaEntry)
    (rid now : String) (res : List (Nat × DefinitionEntry)) (st : Store) (r : Nat)
    (hok : parseDefinitions parsed batch rid now = .ok res)
    (hout : ∀ le ∈ batch, le.rank ≠ r) :
    lookupRank (mergeDefinitions st res) r = lookupRank st r := by
  apply mergeDefinitions_frame r res st
  intro q hq
  cases parsed with
  | none => simp [parseDefinitions] at hok
  | some items =>
    have hgo : parseDefsGo items batch rid now = .ok res := by
      simpa [parseDefinitions] using hok
    obtain ⟨le, hle, hrank⟩ := parseDefsGo_ranks items batch rid now res hgo q hq
    intro hqr
    exact hout le hle (by rw [hrank, hqr])

/-- C5 witness: a response with one in-batch item and one out-of-batch item
(rank 9) leaves the unrelated rank-2 entry untouched after the merge. -/
theorem C5_witness :
    lookupRank (mergeDefinitions [(2, sampleEntry)]
        [(1, mkDefEntry ⟨1, "받다", none, "VERB"⟩ "무엇을 손에 넣다." "rid5" "now5")]) 2
      = lookupRank [(2, sampleEntry)] 2 :=
  C5_generation_frame
    (some [⟨.jNum 1, .jStr "무엇을 손에 넣다."⟩, ⟨.jNum 9, .jStr "버려진 항목"⟩])
    [⟨1, "받다", none, "VERB"⟩] "rid5" "now5"
    [(1, mkDefEntry ⟨1, "받다", none, "VERB"⟩ "무엇을 손에 넣다." "rid5" "now5")]
    [(2, sampleEntry)] 2 rfl (by decide)

/-- C6: the audit merge is idempotent — applying the same validated audit
result (same concerns, same POS fixes, same batch timestamp) twice to the same
store produces a state identical to applying it once (hence the same
`concerns`, `llmCheckOn` and `pos` on every entry). -/
theorem C6_audit_idempotent (st : Store) (batch : List Nat) (cs : List Concern)
    (ps : List PosFix) (stamp : String) :
    applyAudit (applyAudit st batch cs ps stamp) batch cs ps stamp
      = applyAudit st batch cs ps stamp := by
  simp only [applyAudit_eq_map, List.map_map]
  apply List.map_congr_left
  intro p _
  obtain ⟨pk, pe⟩ := p
  cases hc : batch.contains pk with
  | true =>
    have hm : pk ∈ batch := by simpa using hc
    simp [Function.comp, hm, auditEntry_idem]
  | false =>
    have hm : pk ∉ batch := by simpa using hc
    simp [Function.comp, hm]

/-- C7 counterexample: the translation merge, given a validated item for a
rank whose entry already has `eng = "old gloss"`, overwrites it with the new
gloss. -/
theorem C7_counterexample :
    (lookupRank (applyTranslations [(1, eC7)] [⟨1, "new gloss"⟩] "T7") 1).map
        (fun e => e.eng) = some (some "new gloss")
    ∧ eC7.eng = some "old gloss" :=
  ⟨rfl, rfl⟩

/-- C7 (amended): the translation merge writes `eng` for every rank named by
the validated response and present in the store — overwriting any existing
`eng` with the last matching item's trimmed gloss (and stamping `llmCheckOn`
if absent); only entries whose rank appears in no validated item are left
untouched. -/
theorem C7_translation_merge_overwrites (st : Store) (ts : List Translation)
    (stamp : String) (r : Nat) :
    lookupRank (applyTranslations st ts stamp) r
      = match lastMatch ts r with
        | none => lookupRank st r
        | some t => (lookupRank st r).map (fun e => transEntry e t stamp) := by
  have h3 : lookupRank (applyTranslations st ts stamp) r
      = (lookupRank st r).map
          (fun x => (ts.filter (fun t => t.rank == r)).foldl
            (fun acc t => transEntry acc t stamp) x) :=
    lookupRank_foldl_update (fun t : Translation => t.rank)
      (fun t x => transEntry x t stamp) r ts st
  rw [h3]
  cases hl : lookupRank st r with
  | none => cases lastMatch ts r <;> simp
  | some e =>
    simp only [Option.map_some']
    rw [transFold_lastMatch stamp r ts e]
    cases hlm : lastMatch ts r with
    | none => simp
    | some t => simp

/-- C8: for every store satisfying the invariant (`def === null` implies
`defRequestId === ""`) and every id set without the empty string (as produced
by the CLI's `filter(Boolean)`), the spot-check delete clears `def` and
`defRequestId` exactly on the entries whose `defRequestId` is in the set,
leaves every other entry untouched, and reports the number cleared. -/
theorem C8_spot_check_delete (record : Store) (ids : List String) (now : String)
    (hids : ids.contains "" = false)
    (hinv : ∀ p ∈ record, p.2.«def» = none → p.2.defRequestId = "") :
    (spotCheckDelete record ids now).1
        = record.map (fun p =>
            if ids.contains p.2.defRequestId then (p.1, clearEntry p.2 now) else p)
    ∧ (spotCheckDelete record ids now).2
        = record.countP (fun p => ids.contains p.2.defRequestId) := by
  revert hinv
  induction record with
  | nil => intro _; exact ⟨rfl, rfl⟩
  | cons p rest ih =>
    intro hinv
    obtain ⟨k, e⟩ := p
    have hinv_rest : ∀ q ∈ rest, q.2.«def» = none → q.2.defRequestId = "" :=
      fun q hq => hinv q (List.mem_cons_of_mem _ hq)
    obtain ⟨ih1, ih2⟩ := ih hinv_rest
    cases hc : ids.contains e.defRequestId with
    | true =>
      have hsome : e.«def».isSome = true := by
        cases hdef : e.«def» with
        | some d => rfl
        | none =>
          have hre : e.defRequestId = "" := hinv (k, e) (List.mem_cons_self _ _) hdef
          rw [hre, hids] at hc
          exact Bool.noConfusion hc
      have hb : (ids.contains e.defRequestId && e.«def».isSome) = true := by
        rw [hc, hsome]; rfl
      have hm : e.defRequestId ∈ ids := by simpa using hc
      rw [spotCheckDelete_cons_true k e rest ids now hb]
      constructor
      · simp [hm, ih1]
      · simp [List.countP_cons, hm, ih2]
    | false =>
      have hb : (ids.contains e.defRequestId && e.«def».isSome) = false := by
        rw [hc]; rfl
      have hm : e.defRequestId ∉ ids := by simpa using hc
      rw [spotCheckDelete_cons_false k e rest ids now hb]
      constructor
      · simp [hm, ih1]
      · simp [List.countP_cons, hm, ih2]

/-- C8 witness: a two-entry store (one generated entry of request `req-x`, one
invariant-respecting placeholder) and the id set `["req-x"]`. -/
theorem C8_witness :
    (spotCheckDelete stC8 ["req-x"] "T8").1
        = stC8.map (fun p =>
            if (["req-x"].contains p.2.defRequestId) then (p.1, clearEntry p.2 "T8") else p)
    ∧ (spotCheckDelete stC8 ["req-x"] "T8").2
        = stC8.countP (fun p => (["req-x"].contains p.2.defRequestId)) :=
  C8_spot_check_delete stC8 ["req-x"] "T8" (by decide) (by decide)

/-- C9 counterexample: a blank line fails the `"<rank>. <term>"` pattern, yet
ingestion silently skips it instead of failing — the run over three lines
(one blank) succeeds. -/
theorem C9_counterexample :
    parseAllLines ["1. 가다", "", "2. 오다"] = .ok [⟨"가다", 1⟩, ⟨"오다", 2⟩]
    ∧ matchLine "" = none :=
  ⟨rfl, rfl⟩

/-- C9 (amended): every line that is not blank (whitespace-only) and does not
match the `"<rank>. <term>"` pattern makes the whole ingestion run fail with
a fatal error; only blank lines are skipped. -/
theorem C9_nonblank_nonmatching_fatal (lines : List String) (line : String)
    (hmem : line ∈ lines) (hblank : jsTrim line ≠ "") (hmatch : matchLine line = none) :
    isFatal (parseAllLines lines) = true := by
  revert hmem
  induction lines with
  | nil => intro h; cases h
  | cons l rest ih =>
    intro hmem
    rcases List.mem_cons.mp hmem with h | h
    · subst h
      have hpl : parseLine line = .error ("Unrecognized line: " ++ line) := by
        simp [parseLine, hblank, hmatch]
      simp [parseAllLines, hpl, isFatal]
    · cases hpl : parseLine l with
      | error msg => simp [parseAllLines, hpl, isFatal]
      | ok o =>
        cases o with
        | none =>
          have hres := ih h
          simpa [parseAllLines, hpl] using hres
        | some e =>
          have hres := ih h
          cases hrest : parseAllLines rest with
          | error m => simp [parseAllLines, hpl, hrest, isFatal, Except.map]
          | ok v =>
            rw [hrest] at hres
            simp [isFatal] at hres

/-- C9 witness: a file whose second line has no rank prefix is a fatal
ingestion error. -/
theorem C9_witness : isFatal (parseAllLines ["1. 가다", "음"]) = true :=
  C9_nonblank_nonmatching_fatal ["1. 가다", "음"] "음" (by decide) (by decide) rfl

/-- C10: whenever the translation merge applies a validated item to an entry
whose `llmCheckOn` was absent, it sets `llmCheckOn` to the (non-empty) batch
timestamp as a side effect, after which the entry no longer satisfies the
audit pass's pending predicate (`def` present and `llmCheckOn` JS-falsy) and
is skipped by future audit runs. -/
theorem C10_translation_blocks_audit (st : Store) (ts : List Translation) (stamp : String)
    (r : Nat) (e : DefinitionEntry) (t : Translation)
    (hl : lookupRank st r = some e) (hnone : e.llmCheckOn = none)
    (hlm : lastMatch ts r = some t) (hstamp : stamp ≠ "") :
    (lookupRank (applyTranslations st ts stamp) r).map
        (fun x => (x.llmCheckOn, patrolPending x)) = some (some stamp, false) := by
  have h3 : lookupRank (applyTranslations st ts stamp) r
      = (lookupRank st r).map
          (fun x => (ts.filter (fun t => t.rank == r)).foldl
            (fun acc t => transEntry acc t stamp) x) :=
    lookupRank_foldl_update (fun t : Translation => t.rank)
      (fun t x => transEntry x t stamp) r ts st
  rw [h3, hl]
  simp only [Option.map_some']
  rw [transFold_lastMatch stamp r ts e]
  simp only [hlm]
  have hb : (stamp == "") = false := by simpa using hstamp
  simp [transEntry, patrolPending, llmFalsy, hnone, hb]

/-- C10 witness: translating the never-audited rank-3 entry stamps it and
removes it from the audit pending set. -/
theorem C10_witness :
    (lookupRank (applyTranslations [(3, sampleEntry)] [⟨3, "to eat"⟩] "2025-02-02T00:00:00Z") 3).map
        (fun x => (x.llmCheckOn, patrolPending x))
      = some (some "2025-02-02T00:00:00Z", false) :=
  C10_translation_blocks_audit [(3, sampleEntry)] [⟨3, "to eat"⟩] "2025-02-02T00:00:00Z" 3
    sampleEntry ⟨3, "to eat"⟩ rfl rfl rfl (by decide)
